import Mathlib

/-!
Verification development for the APIHive request resolution and execution
engine. The definitions below are shallow embeddings of the TypeScript
source: the variable resolver and URL and header builders from
src/renderer/utils/envVariable.ts, the send pipeline from the renderer
App component, and the IPC request handler from the Electron main process.
Host platform services (the transport, the URL parser verdict, fresh
identifiers, clocks) are passed in as explicit parameters.
-/

namespace APIHive

/-- Left brace character, written numerically. -/
def lbrace : Char := Char.ofNat 123

/-- Right brace character, written numerically. -/
def rbrace : Char := Char.ofNat 125

/-- JavaScript regex whitespace class (backslash-s without the u flag):
tab, line feed, vertical tab, form feed, carriage return, space, NBSP,
Ogham space, the U+2000 block, line and paragraph separators, narrow
NBSP, medium mathematical space, ideographic space, BOM. -/
def isJsSpace (c : Char) : Bool :=
  let n := c.toNat
  n == 9 || n == 10 || n == 11 || n == 12 || n == 13 || n == 32 ||
  n == 0xA0 || n == 0x1680 || (0x2000 ≤ n && n ≤ 0x200A) ||
  n == 0x2028 || n == 0x2029 || n == 0x202F || n == 0x205F ||
  n == 0x3000 || n == 0xFEFF

/-- JavaScript regex word character class (backslash-w, ASCII): letters,
digits, underscore. -/
def isWordChar (c : Char) : Bool :=
  let n := c.toNat
  (65 ≤ n && n ≤ 90) || (97 ≤ n && n ≤ 122) || (48 ≤ n && n ≤ 57) || n == 95

/-- Character class of the placeholder name in the source regex: word
characters, dot (46), hyphen (45). -/
def isNameChar (c : Char) : Bool :=
  isWordChar c || c.toNat == 46 || c.toNat == 45

/-- One attempt of the source regex at the head of the character list:
two left braces, optional whitespace, a nonempty run of name characters,
optional whitespace, two right braces. Returns the captured name and the
remainder after the match. Greedy scanning is exact here because the
whitespace class, the name class, and the brace characters are pairwise
disjoint, so the regex never backtracks across these boundaries. -/
def matchPH (l : List Char) : Option (String × List Char) :=
  match l with
  | c1 :: c2 :: t =>
    if c1 = lbrace ∧ c2 = lbrace then
      let r1 := t.dropWhile isJsSpace
      let nm := r1.takeWhile isNameChar
      let r2 := (r1.dropWhile isNameChar).dropWhile isJsSpace
      if nm = [] then none
      else
        match r2 with
        | d1 :: d2 :: r4 =>
          if d1 = rbrace ∧ d2 = rbrace then some (String.mk nm, r4) else none
        | _ => none
    else none
  | _ => none

/-- Fuel-driven scan of the input, mirroring String.prototype.replace with
a global regex: at each position try the pattern; on a match emit the
binding of the captured name (empty string when absent, the source
expression vars[key] ?? "") and resume after the match, else emit the
character and advance one position. The fuel is always instantiated to
the length of the list, which suffices because every step consumes at
least one character. -/
def scanFuel (vars : String → Option String) : Nat → List Char → List Char
  | 0, l => l
  | _ + 1, [] => []
  | n + 1, c :: cs =>
    match matchPH (c :: cs) with
    | some (nm, rest) => ((vars nm).getD "").data ++ scanFuel vars n rest
    | none => c :: scanFuel vars n cs

/-- Scan with the fuel set to the length of the list. -/
def scanL (vars : String → Option String) (l : List Char) : List Char :=
  scanFuel vars l.length l

/-- Source: applyVariables (envVariable.ts). Replaces every occurrence of
the placeholder pattern by the value of the named variable, or the empty
string when the name is not bound. -/
def applyVariables (input : String) (vars : String → Option String) : String :=
  String.mk (scanL vars input.data)

/-- Boolean detector for the absence of any placeholder occurrence: no
suffix of the text begins with a match of the pattern. -/
def noPlaceholder (s : String) : Bool :=
  s.data.tails.all (fun t => (matchPH t).isNone)

/-- JavaScript String.prototype.trim whitespace removal at both ends. -/
def trimJS (s : String) : String :=
  String.mk (((s.data.dropWhile isJsSpace).reverse.dropWhile isJsSpace).reverse)

/-- Characters left unescaped by encodeURIComponent: ASCII letters and
digits and - _ . ! ~ * apostrophe ( ). -/
def isUnreservedURI (c : Char) : Bool :=
  let n := c.toNat
  (65 ≤ n && n ≤ 90) || (97 ≤ n && n ≤ 122) || (48 ≤ n && n ≤ 57) ||
  n == 45 || n == 95 || n == 46 || n == 33 || n == 126 || n == 42 ||
  n == 39 || n == 40 || n == 41

/-- Uppercase hexadecimal digit of a value below 16. -/
def hexDigit (n : Nat) : Char :=
  if n < 10 then Char.ofNat (48 + n) else Char.ofNat (55 + n)

/-- UTF-8 bytes of a unicode scalar value. -/
def utf8Bytes (c : Char) : List Nat :=
  let n := c.toNat
  if n < 0x80 then [n]
  else if n < 0x800 then [0xC0 + n / 64, 0x80 + n % 64]
  else if n < 0x10000 then
    [0xE0 + n / 4096, 0x80 + (n / 64) % 64, 0x80 + n % 64]
  else
    [0xF0 + n / 262144, 0x80 + (n / 4096) % 64, 0x80 + (n / 64) % 64,
     0x80 + n % 64]

/-- Percent escape of one byte. -/
def pctByte (b : Nat) : List Char :=
  ['%', hexDigit (b / 16), hexDigit (b % 16)]

/-- Model of encodeURIComponent: unreserved characters pass through,
every other character is replaced by the percent escapes of its UTF-8
bytes. -/
def encodeURIComponent (s : String) : String :=
  String.mk
    (s.data.flatMap (fun c =>
      if isUnreservedURI c then [c] else (utf8Bytes c).flatMap pctByte))

/-- UTF-8 byte length of a string, the TextEncoder byte count used for
the size field of a response. -/
def utf8Len (s : String) : Nat :=
  (s.data.map (fun c => (utf8Bytes c).length)).sum

/-- Base64 digit. -/
def b64Char (n : Nat) : Char :=
  if n < 26 then Char.ofNat (65 + n)
  else if n < 52 then Char.ofNat (97 + (n - 26))
  else if n < 62 then Char.ofNat (48 + (n - 52))
  else if n == 62 then '+' else '/'

/-- Base64 encoding of a byte list with padding. -/
def b64Encode : List Nat → List Char
  | [] => []
  | [a] => [b64Char (a / 4), b64Char (a % 4 * 16), '=', '=']
  | [a, b] => [b64Char (a / 4), b64Char (a % 4 * 16 + b / 16),
               b64Char (b % 16 * 4), '=']
  | a :: b :: c :: rest =>
      b64Char (a / 4) :: b64Char (a % 4 * 16 + b / 16) ::
      b64Char (b % 16 * 4 + c / 64) :: b64Char (c % 64) :: b64Encode rest

/-- Model of btoa on latin-1 text: base64 of the low byte of each code
point. -/
def btoa (s : String) : String :=
  String.mk (b64Encode (s.data.map (fun c => c.toNat % 256)))

/-- Source type KeyValue: one query parameter, header, or form field row. -/
structure KeyValue where
  id : String
  key : String
  value : String
  enabled : Bool
  secret : Bool
deriving DecidableEq, Repr

/-- Source type EnvVariable: one environment variable row. -/
structure EnvVariable where
  id : String
  key : String
  initialValue : String
  currentValue : String
  sensitive : Bool
deriving DecidableEq, Repr

/-- Placement of an API key credential. -/
inductive Placement where
  | header
  | query
deriving DecidableEq, Repr

/-- Source type AuthConfig: the tagged authentication variant. -/
inductive AuthConfig where
  | none
  | basic (username password : String)
  | bearer (token : String)
  | apiKey (key value : String) (addTo : Placement)
deriving DecidableEq, Repr

/-- Source type RequestDraft. The method and bodyType are kept as plain
strings, as in the source, where they are compared against string
literals. -/
structure RequestDraft where
  id : String
  name : String
  method : String
  url : String
  params : List KeyValue
  headers : List KeyValue
  bodyType : String
  body : String
  formDataFields : Option (List KeyValue)
  auth : AuthConfig
  documentation : Option String
deriving DecidableEq, Repr

/-- Source type ResponseState: the normalized response record. Headers
are an association list in insertion order. -/
structure ResponseState where
  status : Nat
  statusText : String
  headers : List (String × String)
  body : String
  duration : Nat
  size : Nat
deriving DecidableEq, Repr

/-- Source type HistoryItem. The source field named at is rendered
atTime here because at is reserved in Lean. -/
structure HistoryItem where
  id : String
  name : String
  method : String
  url : String
  status : Nat
  duration : Nat
  size : Nat
  atTime : Nat
deriving DecidableEq, Repr

/-- Raw result of a successful fetch, before normalization. -/
structure FetchOk where
  status : Nat
  statusText : String
  headers : List (String × String)
  body : String
deriving DecidableEq, Repr

/-- Functional update of a string map, modelling assignment to a
JavaScript record field: the updated key wins over previous entries. -/
def mapInsert (m : String → Option String) (k v : String) :
    String → Option String :=
  fun q => if q = k then some v else m q

/-- The empty string map. -/
def emptyMap : String → Option String := fun _ => Option.none

/-- Source: the variableMap memo in the App component. The active
environment variables with a non-blank trimmed key are folded into a
record keyed by the trimmed name, the value being currentValue; a later
entry with the same trimmed key overwrites an earlier one. -/
def variableMap (vs : List EnvVariable) : String → Option String :=
  (vs.filter (fun v => (trimJS v.key).data.length != 0)).foldl
    (fun m v => mapInsert m (trimJS v.key) v.currentValue) emptyMap

/-- Source: the filter and map step of buildUrl. Enabled parameters with
a non-blank trimmed key, with variables resolved in the trimmed key and
in the value. -/
def selectedPairs (params : List KeyValue) (vars : String → Option String) :
    List (String × String) :=
  (params.filter (fun i => i.enabled && (trimJS i.key).data.length != 0)).map
    (fun i => (applyVariables (trimJS i.key) vars, applyVariables i.value vars))

/-- Source: the query assembly of buildUrl. Each pair is percent encoded
and the pairs are joined with ampersands in draft order. -/
def queryString (params : List KeyValue) (vars : String → Option String) :
    String :=
  String.intercalate "&"
    ((selectedPairs params vars).map
      (fun p => encodeURIComponent p.1 ++ "=" ++ encodeURIComponent p.2))

/-- Source: buildUrl (envVariable.ts). Resolves variables in the base
URL; with no selected parameters the base is returned unchanged, else
the query is spliced in before the first hash character, the separator
being an ampersand when the portion before the hash already holds a
question mark and a question mark otherwise. -/
def buildUrl (url : String) (params : List KeyValue)
    (vars : String → Option String) : String :=
  let baseUrl := applyVariables url vars
  if selectedPairs params vars = [] then baseUrl
  else
    let withoutHash := String.mk (baseUrl.data.takeWhile (fun c => c != '#'))
    let hash := String.mk (baseUrl.data.dropWhile (fun c => c != '#'))
    let separator := if withoutHash.data.contains '?' then "&" else "?"
    withoutHash ++ separator ++ queryString params vars ++ hash

/-- Source: buildHeaders (envVariable.ts). Enabled headers with a
non-blank trimmed key are written into a record in draft order, variables
resolved in trimmed key and value; afterwards the auth variant injects
its header, overriding any like-named user header. -/
def buildHeaders (headers : List KeyValue) (auth : AuthConfig)
    (vars : String → Option String) : String → Option String :=
  let base :=
    (headers.filter (fun i => i.enabled && (trimJS i.key).data.length != 0)).foldl
      (fun m i =>
        mapInsert m (applyVariables (trimJS i.key) vars)
          (applyVariables i.value vars))
      emptyMap
  match auth with
  | AuthConfig.basic u p =>
      mapInsert base "Authorization" ("Basic " ++ btoa (u ++ ":" ++ p))
  | AuthConfig.bearer t =>
      mapInsert base "Authorization" ("Bearer " ++ t)
  | AuthConfig.apiKey k v Placement.header => mapInsert base k v
  | AuthConfig.apiKey _ _ Placement.query => base
  | AuthConfig.none => base

/-- Truthiness of the optional chain formDataFields question-dot length. -/
def formHasLen : Option (List KeyValue) → Bool
  | Option.none => false
  | some l => l.length != 0

/-- Source: the form-data body assembly in handleSend. Enabled fields
with a non-blank trimmed key, variables resolved, percent encoded, and
joined with ampersands. -/
def formEncode (fields : List KeyValue) (vars : String → Option String) :
    String :=
  String.intercalate "&"
    ((fields.filter (fun i => i.enabled && (trimJS i.key).data.length != 0)).map
      (fun i =>
        encodeURIComponent (applyVariables (trimJS i.key) vars) ++ "=" ++
        encodeURIComponent (applyVariables i.value vars)))

/-- Source: the body selection in handleSend. GET and HEAD never carry a
body; otherwise json with non-blank text sends the raw body, form-data
with a present nonempty field list sends the encoded fields, text with
non-blank text sends the raw body, and anything else sends no body. -/
def selectBody (method bodyType body : String)
    (formDataFields : Option (List KeyValue))
    (vars : String → Option String) : Option String :=
  if method = "GET" ∨ method = "HEAD" then Option.none
  else if bodyType = "json" ∧ (trimJS body).data.length != 0 then some body
  else if bodyType = "form-data" ∧ formHasLen formDataFields then
    some (formEncode (formDataFields.getD []) vars)
  else if bodyType = "text" ∧ (trimJS body).data.length != 0 then some body
  else Option.none

/-- Source: the Content-Type mutation accompanying body selection in
handleSend, applied on top of the composed headers. -/
def mergedHeadersAfterBody (draft : RequestDraft)
    (vars : String → Option String) : String → Option String :=
  let h := buildHeaders draft.headers draft.auth vars
  if draft.method = "GET" ∨ draft.method = "HEAD" then h
  else if draft.bodyType = "json" ∧ (trimJS draft.body).data.length != 0 then
    mapInsert h "Content-Type" "application/json"
  else if draft.bodyType = "form-data" ∧ formHasLen draft.formDataFields then
    mapInsert h "Content-Type" "application/x-www-form-urlencoded"
  else h

/-- Source: the URL mutation before dispatch in handleSend. With apiKey
auth placed in the query, the percent encoded pair is appended to the end
of the final URL, the separator being an ampersand when a question mark
occurs anywhere in the string and a question mark otherwise. -/
def dispatchUrl (resolvedUrl : String) (auth : AuthConfig) : String :=
  match auth with
  | AuthConfig.apiKey k v Placement.query =>
      let join := if resolvedUrl.data.contains '?' then "&" else "?"
      resolvedUrl ++ join ++ encodeURIComponent k ++ "=" ++
        encodeURIComponent v
  | _ => resolvedUrl

/-- The request actually handed to the transport. -/
structure DispatchCall where
  url : String
  method : String
  headers : String → Option String
  body : Option String

/-- The full resolved request sent by handleSend for a draft. -/
def dispatchCallOf (draft : RequestDraft) (vars : String → Option String) :
    DispatchCall :=
  { url := dispatchUrl (buildUrl draft.url draft.params vars) draft.auth
    method := draft.method
    headers := mergedHeadersAfterBody draft vars
    body := selectBody draft.method draft.bodyType draft.body
      draft.formDataFields vars }

/-- Source: the history update in handleSend. The fresh entry is
prepended and the list truncated to the most recent twenty. -/
def recordHistory (entry : HistoryItem) (history : List HistoryItem) :
    List HistoryItem :=
  (entry :: history).take 20

/-- Repeated recording of a sequence of executions, oldest first. -/
def recordAll (entries : List HistoryItem) (history : List HistoryItem) :
    List HistoryItem :=
  entries.foldl (fun acc e => recordHistory e acc) history

/-- The history entry built in handleSend: fresh identifier, draft name
and method, the resolved URL from the builder before the API key
mutation, the status, duration and size of the response, the clock. -/
def mkHistoryItem (freshId : String) (draft : RequestDraft)
    (resolvedUrl : String) (resp : ResponseState) (now : Nat) : HistoryItem :=
  { id := freshId, name := draft.name, method := draft.method,
    url := resolvedUrl, status := resp.status, duration := resp.duration,
    size := resp.size, atTime := now }

/-- Body text of the renderer catch branch: the message of an Error
rejection, a fixed fallback otherwise. -/
def rendererErrMessage : Option String → String
  | some m => m
  | Option.none => "Unknown error"

/-- Body text of the IPC handler catch branch: the message of an Error
rejection, a fixed fallback otherwise. -/
def ipcErrMessage : Option String → String
  | some m => m
  | Option.none => "Request failed"

/-- Source: the try and catch around fetch in the IPC handler. A fetch
success is normalized to a response record carrying the UTF-8 byte size
of the body; a fetch rejection is converted into a status zero record
with statusText Request failed, no headers, and the error message as the
body. -/
def ipcTryFetch (r : Except (Option String) FetchOk) (duration : Nat) :
    ResponseState :=
  match r with
  | Except.ok f =>
      { status := f.status, statusText := f.statusText,
        headers := f.headers, body := f.body, duration := duration,
        size := utf8Len f.body }
  | Except.error e =>
      { status := 0, statusText := "Request failed", headers := [],
        body := ipcErrMessage e, duration := duration, size := 0 }

/-- Source: handleSend (App component). The availability of the window
api and the verdict of the URL validator are oracle booleans; the awaited
transport outcome is either a delivered response record or a rejection
value. The function returns the response shown to the caller and the
updated history list; history is extended only when the transport
delivers a record, with the entry built from the pre-mutation resolved
URL. -/
def handleSend (apiAvailable urlValid : Bool) (draft : RequestDraft)
    (vars : String → Option String)
    (transport : Except (Option String) ResponseState)
    (history : List HistoryItem) (freshId : String) (now : Nat) :
    ResponseState × List HistoryItem :=
  if !apiAvailable then
    ({ status := 0, statusText := "Error", headers := [],
       body := "API not available. Restart the app.", duration := 0,
       size := 0 }, history)
  else if !urlValid then
    ({ status := 0, statusText := "Invalid URL", headers := [],
       body := "Enter a valid http or https URL.", duration := 0,
       size := 0 }, history)
  else
    match transport with
    | Except.ok resp =>
        (resp,
         recordHistory
           (mkHistoryItem freshId draft (buildUrl draft.url draft.params vars)
             resp now)
           history)
    | Except.error e =>
        ({ status := 0, statusText := "Request failed", headers := [],
           body := rendererErrMessage e, duration := 0, size := 0 }, history)

/-- The four fields of an environment variable row other than the
sensitive flag. -/
def stripSensitive (v : EnvVariable) : String × String × String × String :=
  (v.id, v.key, v.initialValue, v.currentValue)

/-- Sample variable binding used by concrete instances. -/
def v0 : String → Option String :=
  fun n => if n = "x" then some "1" else Option.none

/-- Sample draft used by concrete instances. -/
def d0 : RequestDraft :=
  { id := "rid", name := "Untitled", method := "GET",
    url := "https://e.com", params := [], headers := [],
    bodyType := "json", body := "", formDataFields := Option.none,
    auth := AuthConfig.none, documentation := Option.none }

/-- Sample history entry used by concrete instances. -/
def hi0 : HistoryItem :=
  { id := "h1", name := "n", method := "GET", url := "u", status := 200,
    duration := 1, size := 2, atTime := 3 }

/-- Sample parameter row used by concrete instances. -/
def kvB : KeyValue :=
  { id := "1", key := "b", value := "2", enabled := true, secret := false }

/-- Sample environment variable row, not sensitive. -/
def ev0 : EnvVariable :=
  { id := "1", key := "k", initialValue := "i", currentValue := "c",
    sensitive := false }

/-- The same environment variable row with the sensitive flag set. -/
def ev1 : EnvVariable :=
  { id := "1", key := "k", initialValue := "i", currentValue := "c",
    sensitive := true }

/-!
Helper lemmas about the placeholder matcher and the scanner.
-/

/-- A match attempt on a list not starting with a left brace fails. -/
theorem matchPH_not_lbrace (c : Char) (cs : List Char) (h : c ≠ lbrace) :
    matchPH (c :: cs) = Option.none := by
  cases cs with
  | nil => rfl
  | cons c2 t =>
    simp only [matchPH]
    rw [if_neg (fun hh => h hh.1)]

/-- A successful match consumes at least one character. -/
theorem matchPH_some_length {l : List Char} {nm : String} {rest : List Char}
    (h : matchPH l = some (nm, rest)) : rest.length < l.length := by
  match l with
  | [] => simp [matchPH] at h
  | [c] => simp [matchPH] at h
  | c1 :: c2 :: t =>
    simp only [matchPH] at h
    split at h
    · split at h
      · exact absurd h (by simp)
      · split at h
        · rename_i d1 d2 r4 heq
          split at h
          · have hr : rest = r4 := by
              injection h with h1
              injection h1 with h2 h3
              exact h3.symm
            subst hr
            have k1 : ((t.dropWhile isJsSpace).dropWhile isNameChar).dropWhile
                isJsSpace = d1 :: d2 :: rest := heq
            have k2 : (((t.dropWhile isJsSpace).dropWhile isNameChar).dropWhile
                isJsSpace).length ≤ t.length :=
              le_trans (List.dropWhile_sublist _).length_le
                (le_trans (List.dropWhile_sublist _).length_le
                  (List.dropWhile_sublist _).length_le)
            rw [k1] at k2
            simp only [List.length_cons]
            simp only [List.length_cons] at k2
            omega
          · exact absurd h (by simp)
        · exact absurd h (by simp)
    · exact absurd h (by simp)

/-- The scan does not depend on the fuel once the fuel covers the length
of the list. -/
theorem scanFuel_congr (vars : String → Option String) :
    ∀ n m l, l.length ≤ n → l.length ≤ m →
      scanFuel vars n l = scanFuel vars m l := by
  intro n
  induction n with
  | zero =>
    intro m l h1 _
    have hl : l = [] := List.length_eq_zero.mp (Nat.le_zero.mp h1)
    subst hl
    cases m <;> rfl
  | succ n ih =>
    intro m l h1 h2
    cases l with
    | nil => cases m <;> rfl
    | cons c cs =>
      cases m with
      | zero => simp at h2
      | succ m =>
        simp only [scanFuel]
        cases hm : matchPH (c :: cs) with
        | none =>
          have hcs : cs.length ≤ n := by
            simp only [List.length_cons] at h1; omega
          have hcs2 : cs.length ≤ m := by
            simp only [List.length_cons] at h2; omega
          rw [ih m cs hcs hcs2]
        | some pr =>
          obtain ⟨nm, rest⟩ := pr
          have hlt := matchPH_some_length hm
          simp only [List.length_cons] at hlt h1 h2
          dsimp only
          rw [ih m rest (by omega) (by omega)]

/-- Scanner step on a position where the pattern does not match. -/
theorem scanL_cons_none {c : Char} {cs : List Char}
    (vars : String → Option String) (h : matchPH (c :: cs) = Option.none) :
    scanL vars (c :: cs) = c :: scanL vars cs := by
  simp only [scanL, List.length_cons, scanFuel, h]

/-- Scanner step on a position where the pattern matches: the binding of
the captured name is emitted and scanning resumes after the match. -/
theorem scanL_cons_some {l : List Char} {nm : String} {rest : List Char}
    (vars : String → Option String) (h : matchPH l = some (nm, rest)) :
    scanL vars l = ((vars nm).getD "").data ++ scanL vars rest := by
  cases l with
  | nil => simp [matchPH] at h
  | cons c cs =>
    simp only [scanL, List.length_cons, scanFuel, h]
    have hlt := matchPH_some_length h
    simp only [List.length_cons] at hlt
    rw [scanFuel_congr vars cs.length rest.length rest (by omega) (by omega)]

/-- Text on which no suffix matches the pattern is scanned to itself. -/
theorem scanL_of_no_match (vars : String → Option String) :
    ∀ l : List Char, (∀ t ∈ l.tails, matchPH t = Option.none) →
      scanL vars l = l := by
  intro l
  induction l with
  | nil => intro _; rfl
  | cons c cs ih =>
    intro h
    have hc : matchPH (c :: cs) = Option.none :=
      h (c :: cs) (by rw [List.tails_cons]; exact List.mem_cons_self _ _)
    rw [scanL_cons_none vars hc]
    rw [ih (fun t ht =>
      h t (by rw [List.tails_cons]; exact List.mem_cons_of_mem _ ht))]

/-- A name character is not whitespace. -/
theorem nameChar_not_space {c : Char} (h : isNameChar c = true) :
    isJsSpace c = false := by
  rw [Bool.eq_false_iff]
  intro hs
  simp only [isNameChar, isWordChar, Bool.or_eq_true, Bool.and_eq_true,
    beq_iff_eq, decide_eq_true_eq] at h
  simp only [isJsSpace, Bool.or_eq_true, Bool.and_eq_true, beq_iff_eq,
    decide_eq_true_eq] at hs
  omega

/-- A whitespace character is not a name character. -/
theorem space_not_nameChar {c : Char} (h : isJsSpace c = true) :
    isNameChar c = false := by
  rw [Bool.eq_false_iff]
  intro hn
  simp only [isNameChar, isWordChar, Bool.or_eq_true, Bool.and_eq_true,
    beq_iff_eq, decide_eq_true_eq] at hn
  simp only [isJsSpace, Bool.or_eq_true, Bool.and_eq_true, beq_iff_eq,
    decide_eq_true_eq] at h
  omega

/-- dropWhile passes over a prefix on which the predicate holds. -/
theorem dropWhile_append_of_all {α : Type} (p : α → Bool) (xs ys : List α)
    (h : ∀ c ∈ xs, p c = true) :
    (xs ++ ys).dropWhile p = ys.dropWhile p := by
  induction xs with
  | nil => rfl
  | cons a t ih =>
    simp only [List.cons_append]
    rw [List.dropWhile_cons_of_pos (h a (by simp))]
    exact ih (fun c hc => h c (by simp [hc]))

/-- dropWhile is the identity when the head fails the predicate. -/
theorem dropWhile_of_head_false {α : Type} (p : α → Bool) (ys : List α)
    (h : ∀ c, ys.head? = some c → p c = false) :
    ys.dropWhile p = ys := by
  cases ys with
  | nil => rfl
  | cons a t =>
    apply List.dropWhile_cons_of_neg
    simp [h a rfl]

/-- takeWhile captures exactly a prefix on which the predicate holds when
the following character fails it. -/
theorem takeWhile_append_of_all {α : Type} (p : α → Bool) (xs ys : List α)
    (h : ∀ c ∈ xs, p c = true) (h2 : ∀ c, ys.head? = some c → p c = false) :
    (xs ++ ys).takeWhile p = xs := by
  induction xs with
  | nil =>
    cases ys with
    | nil => rfl
    | cons a t =>
      apply List.takeWhile_cons_of_neg
      simp [h2 a rfl]
  | cons a t ih =>
    simp only [List.cons_append]
    rw [List.takeWhile_cons_of_pos (h a (by simp))]
    rw [ih (fun c hc => h c (by simp [hc]))]

/-- The matcher succeeds on a literal placeholder: two left braces,
whitespace, a nonempty name, whitespace, two right braces, capturing the
name and returning the remainder. -/
theorem matchPH_placeholder (ws1 nm ws2 rest : List Char)
    (h1 : ∀ c ∈ ws1, isJsSpace c = true) (h2 : nm ≠ [])
    (h3 : ∀ c ∈ nm, isNameChar c = true)
    (h4 : ∀ c ∈ ws2, isJsSpace c = true) :
    matchPH (lbrace :: lbrace ::
        (ws1 ++ (nm ++ (ws2 ++ rbrace :: rbrace :: rest))))
      = some (String.mk nm, rest) := by
  have hheadName : ∀ c,
      (nm ++ (ws2 ++ rbrace :: rbrace :: rest)).head? = some c →
      isJsSpace c = false := by
    intro c hc
    cases nm with
    | nil => exact absurd rfl h2
    | cons a t =>
      simp only [List.cons_append, List.head?_cons, Option.some.injEq] at hc
      subst hc
      exact nameChar_not_space (h3 a (by simp))
  have hheadAfterName : ∀ c,
      (ws2 ++ rbrace :: rbrace :: rest).head? = some c →
      isNameChar c = false := by
    intro c hc
    cases ws2 with
    | nil =>
      simp only [List.nil_append, List.head?_cons, Option.some.injEq] at hc
      subst hc
      decide
    | cons a t =>
      simp only [List.cons_append, List.head?_cons, Option.some.injEq] at hc
      subst hc
      exact space_not_nameChar (h4 a (by simp))
  have e1 : (ws1 ++ (nm ++ (ws2 ++ rbrace :: rbrace :: rest))).dropWhile
      isJsSpace = nm ++ (ws2 ++ rbrace :: rbrace :: rest) := by
    rw [dropWhile_append_of_all _ _ _ h1,
        dropWhile_of_head_false _ _ hheadName]
  have e2 : (nm ++ (ws2 ++ rbrace :: rbrace :: rest)).takeWhile isNameChar
      = nm :=
    takeWhile_append_of_all _ _ _ h3 hheadAfterName
  have e3 : (nm ++ (ws2 ++ rbrace :: rbrace :: rest)).dropWhile isNameChar
      = ws2 ++ rbrace :: rbrace :: rest := by
    rw [dropWhile_append_of_all _ _ _ h3,
        dropWhile_of_head_false _ _ hheadAfterName]
  have e4 : (ws2 ++ rbrace :: rbrace :: rest).dropWhile isJsSpace
      = rbrace :: rbrace :: rest := by
    rw [dropWhile_append_of_all _ _ _ h4]
    apply dropWhile_of_head_false
    intro c hc
    simp only [List.head?_cons, Option.some.injEq] at hc
    subst hc
    decide
  simp only [matchPH, e1, e2, e3, e4]
  simp [h2]

/-- Scanning plain text followed by a placeholder replaces the
placeholder by the binding of its name and leaves the plain prefix
untouched. -/
theorem scanL_subst (vars : String → Option String)
    (pre ws1 nm ws2 rest : List Char)
    (hpre : ∀ c ∈ pre, c ≠ lbrace)
    (h1 : ∀ c ∈ ws1, isJsSpace c = true) (h2 : nm ≠ [])
    (h3 : ∀ c ∈ nm, isNameChar c = true)
    (h4 : ∀ c ∈ ws2, isJsSpace c = true) :
    scanL vars (pre ++ lbrace :: lbrace ::
        (ws1 ++ (nm ++ (ws2 ++ rbrace :: rbrace :: rest))))
      = pre ++ ((vars (String.mk nm)).getD "").data ++ scanL vars rest := by
  induction pre with
  | nil =>
    simp only [List.nil_append]
    rw [scanL_cons_some vars (matchPH_placeholder ws1 nm ws2 rest h1 h2 h3 h4)]
  | cons c t ih =>
    simp only [List.cons_append]
    rw [scanL_cons_none vars
      (matchPH_not_lbrace c _ (hpre c (by simp)))]
    rw [ih (fun d hd => hpre d (by simp [hd]))]

/-- Two strings with the same character data are equal. -/
theorem stringDataEq {s t : String} (h : s.data = t.data) : s = t := by
  cases s
  cases t
  exact congrArg String.mk h

/-- String append concatenates the character data. -/
theorem data_appendStr (s t : String) : (s ++ t).data = s.data ++ t.data :=
  rfl

/-- Character data of the opening double brace literal. -/
theorem data_openBraces : ("\x7b\x7b" : String).data = [lbrace, lbrace] := by
  decide

/-- Character data of the closing double brace literal. -/
theorem data_closeBraces : ("\x7d\x7d" : String).data = [rbrace, rbrace] := by
  decide

/-- C1: resolution contract of applyVariables. Every occurrence of the
pattern double brace, optional whitespace, a name of word characters dot
or hyphen, optional whitespace, double brace is replaced by the value of
the map at that name when present and by the empty string otherwise;
text carrying no occurrence of the pattern is returned unchanged, so the
function is the identity on plain text, and resolution is a total
function that never fails. -/
theorem applyVariables_contract (vars : String → Option String) :
    (∀ s : String, noPlaceholder s = true → applyVariables s vars = s) ∧
    (∀ pre ws1 nm ws2 rest : String,
      (∀ c ∈ pre.data, c ≠ lbrace) →
      (∀ c ∈ ws1.data, isJsSpace c = true) →
      nm.data ≠ [] →
      (∀ c ∈ nm.data, isNameChar c = true) →
      (∀ c ∈ ws2.data, isJsSpace c = true) →
      applyVariables
          (pre ++ "\x7b\x7b" ++ ws1 ++ nm ++ ws2 ++ "\x7d\x7d" ++ rest) vars
        = pre ++ (vars nm).getD "" ++ applyVariables rest vars) := by
  constructor
  · intro s hs
    apply stringDataEq
    show scanL vars s.data = s.data
    apply scanL_of_no_match
    intro t ht
    simp only [noPlaceholder, List.all_eq_true] at hs
    exact Option.isNone_iff_eq_none.mp (hs t ht)
  · intro pre ws1 nm ws2 rest hpre h1 h2 h3 h4
    apply stringDataEq
    have hdata :
        (pre ++ "\x7b\x7b" ++ ws1 ++ nm ++ ws2 ++ "\x7d\x7d" ++ rest).data
          = pre.data ++ lbrace :: lbrace ::
              (ws1.data ++ (nm.data ++
                (ws2.data ++ rbrace :: rbrace :: rest.data))) := by
      rw [data_appendStr, data_appendStr, data_appendStr, data_appendStr,
        data_appendStr, data_appendStr, data_openBraces, data_closeBraces]
      simp only [List.append_assoc, List.cons_append, List.nil_append]
    show scanL vars
        (pre ++ "\x7b\x7b" ++ ws1 ++ nm ++ ws2 ++ "\x7d\x7d" ++ rest).data
      = (pre ++ (vars nm).getD "" ++ applyVariables rest vars).data
    rw [hdata]
    rw [scanL_subst vars pre.data ws1.data nm.data ws2.data rest.data
      hpre h1 h2 h3 h4]
    simp only [data_appendStr]
    rfl

/-- C1 witness: concrete instances of both parts of the contract. -/
theorem applyVariables_contract_witness :
    applyVariables "hello world" v0 = "hello world" ∧
    applyVariables ("a" ++ "\x7b\x7b" ++ "" ++ "x" ++ " " ++ "\x7d\x7d" ++ "b")
        v0 = "a" ++ (v0 "x").getD "" ++ applyVariables "b" v0 :=
  ⟨(applyVariables_contract v0).1 "hello world" (by decide),
   (applyVariables_contract v0).2 "a" "" "x" " " "b" (by decide) (by decide)
     (by decide) (by decide) (by decide)⟩

/-- C2 counterexample: a transport rejection carrying an Error whose
message is the empty string is delivered as a record with status zero,
statusText Request failed and empty headers, but with an empty body,
refuting the claim that the body is always a non-empty message. -/
theorem transport_failure_empty_body :
    (handleSend true true d0 v0 (Except.error (some "")) [] "fid" 0).1.status
        = 0 ∧
    (handleSend true true d0 v0
        (Except.error (some "")) [] "fid" 0).1.statusText = "Request failed" ∧
    (handleSend true true d0 v0 (Except.error (some "")) [] "fid" 0).1.headers
        = [] ∧
    (handleSend true true d0 v0 (Except.error (some "")) [] "fid" 0).1.body
        = "" :=
  ⟨rfl, rfl, rfl, rfl⟩

/-- C2 amended: execute never raises; every transport failure, in the
renderer catch branch and in the IPC handler catch branch alike, is
delivered as a record with status zero, statusText Request failed, an
empty header map, and a body equal to the message of the Error rejection
or to a fixed non-empty fallback for a non-Error rejection; the body is
therefore non-empty whenever the message is non-empty. -/
theorem transport_failure_record (draft : RequestDraft)
    (vars : String → Option String) (hist : List HistoryItem)
    (fid : String) (now : Nat) (e : Option String) (dur : Nat) :
    handleSend true true draft vars (Except.error e) hist fid now
      = ({ status := 0, statusText := "Request failed", headers := [],
           body := rendererErrMessage e, duration := 0, size := 0 }, hist) ∧
    ipcTryFetch (Except.error e) dur
      = { status := 0, statusText := "Request failed", headers := [],
          body := ipcErrMessage e, duration := dur, size := 0 } ∧
    (∀ m : String, m ≠ "" →
      rendererErrMessage (some m) ≠ "" ∧ ipcErrMessage (some m) ≠ "") ∧
    rendererErrMessage Option.none ≠ "" ∧ ipcErrMessage Option.none ≠ "" :=
  ⟨rfl, rfl, fun _ hm => ⟨hm, hm⟩, by decide, by decide⟩

/-- C2 witness: the amended statement applied to a concrete non-empty
message. -/
theorem transport_failure_record_witness :
    rendererErrMessage (some "boom") ≠ "" ∧ ipcErrMessage (some "boom") ≠ "" :=
  (transport_failure_record d0 v0 [] "fid" 0 (some "boom") 1).2.2.1 "boom"
    (by decide)

/-- C3: fragment handling of buildUrl. Whenever the resolved base URL
holds a hash character and the selected parameter list is nonempty, the
assembled query block is spliced in before the fragment, with separator
ampersand when the portion before the hash already holds a question mark
and question mark otherwise; and the concrete example of the claim. -/
theorem buildUrl_fragment :
    (∀ (url : String) (params : List KeyValue)
        (vars : String → Option String),
      (applyVariables url vars).data.contains '#' = true →
      selectedPairs params vars ≠ [] →
      buildUrl url params vars =
        String.mk ((applyVariables url vars).data.takeWhile (fun c => c != '#'))
        ++ (if (String.mk ((applyVariables url vars).data.takeWhile
              (fun c => c != '#'))).data.contains '?' then "&" else "?")
        ++ queryString params vars
        ++ String.mk ((applyVariables url vars).data.dropWhile
              (fun c => c != '#'))) ∧
    buildUrl "https://h/p?a=1#frag" [kvB] emptyMap
      = "https://h/p?a=1&b=2#frag" := by
  constructor
  · intro url params vars _ h2
    simp only [buildUrl]
    rw [if_neg h2]
  · decide

/-- C3 witness: the general fragment statement applied at a concrete
input with both hypotheses discharged by evaluation. -/
theorem buildUrl_fragment_witness :
    buildUrl "https://h/p#f" [kvB] emptyMap = "https://h/p?b=2#f" :=
  (buildUrl_fragment.1 "https://h/p#f" [kvB] emptyMap (by decide)
    (by decide)).trans (by decide)

/-- C4: bearer auth overrides explicit headers. For every header list and
variable map, buildHeaders with bearer auth binds Authorization to the
word Bearer followed by the token, regardless of any user-supplied
Authorization entry, because auth injection is applied after the explicit
headers. -/
theorem buildHeaders_bearer (headers : List KeyValue)
    (vars : String → Option String) (t : String) :
    buildHeaders headers (AuthConfig.bearer t) vars "Authorization"
      = some ("Bearer " ++ t) := by
  simp [buildHeaders, mapInsert]

/-- C5: for a GET or HEAD method the body selection yields no body,
whatever the bodyType, body text, or form fields. -/
theorem selectBody_get_head (method bodyType body : String)
    (ff : Option (List KeyValue)) (vars : String → Option String)
    (h : method = "GET" ∨ method = "HEAD") :
    selectBody method bodyType body ff vars = Option.none := by
  unfold selectBody
  rw [if_pos h]

/-- C5 witness: the statement applied at a concrete GET draft with a
nonempty json body. -/
theorem selectBody_get_head_witness :
    selectBody "GET" "json" "xx" Option.none v0 = Option.none :=
  selectBody_get_head "GET" "json" "xx" Option.none v0 (Or.inl rfl)

/-- C6: history capacity invariant. Starting from any history of length
at most twenty, after any sequence of recorded executions the length
never exceeds twenty, and the entry of the most recent execution sits at
index zero. -/
theorem history_capacity (entries h0 : List HistoryItem)
    (hlen : h0.length ≤ 20) :
    (recordAll entries h0).length ≤ 20 ∧
    (∀ e, entries.getLast? = some e →
      (recordAll entries h0).head? = some e) := by
  induction entries generalizing h0 with
  | nil =>
    refine ⟨hlen, ?_⟩
    intro e he
    simp at he
  | cons a t ih =>
    have hrec : (recordHistory a h0).length ≤ 20 := by
      simp only [recordHistory, List.length_take]
      exact Nat.min_le_left _ _
    have hstep : recordAll (a :: t) h0 = recordAll t (recordHistory a h0) := by
      simp [recordAll]
    obtain ⟨l1, l2⟩ := ih (recordHistory a h0) hrec
    refine ⟨by rw [hstep]; exact l1, ?_⟩
    intro e he
    cases t with
    | nil =>
      simp only [List.getLast?_singleton, Option.some.injEq] at he
      subst he
      rw [hstep]
      rfl
    | cons b t2 =>
      rw [List.getLast?_cons_cons] at he
      rw [hstep]
      exact l2 e he

/-- C6 witness: the capacity statement applied to the empty history and a
single recorded execution. -/
theorem history_capacity_witness :
    (recordAll [hi0] []).length ≤ 20 ∧
    (recordAll [hi0] []).head? = some hi0 :=
  ⟨(history_capacity [hi0] [] (by decide)).1,
   (history_capacity [hi0] [] (by decide)).2 hi0 (by decide)⟩

/-- C7: a history entry is constructed and prepended for every completed
execution. For every fetch outcome of the IPC handler, success or
failure, the delivered record makes handleSend prepend exactly the entry
built from the fresh identifier, the draft name and method, the resolved
URL before the API key mutation, the status, duration and size of the
record, and the clock; the fresh entry sits at the head. -/
theorem historyEntry_recorded (draft : RequestDraft)
    (vars : String → Option String) (fr : Except (Option String) FetchOk)
    (dur : Nat) (hist : List HistoryItem) (fid : String) (now : Nat) :
    (handleSend true true draft vars (Except.ok (ipcTryFetch fr dur))
        hist fid now).2
      = recordHistory
          (mkHistoryItem fid draft (buildUrl draft.url draft.params vars)
            (ipcTryFetch fr dur) now) hist ∧
    (handleSend true true draft vars (Except.ok (ipcTryFetch fr dur))
        hist fid now).2.head?
      = some (mkHistoryItem fid draft (buildUrl draft.url draft.params vars)
          (ipcTryFetch fr dur) now) :=
  ⟨rfl, rfl⟩

/-- C8: for a draft whose auth is an API key placed in the query, the
recorded history URL is the resolved URL produced by the URL builder,
while the dispatched URL is that same URL with the encoded pair appended
after it, so the query-placed API key pair never appears in the history
URL. -/
theorem history_url_excludes_apiKey (draft : RequestDraft) (k v : String)
    (vars : String → Option String) (resp : ResponseState)
    (hist : List HistoryItem) (fid : String) (now : Nat) :
    (handleSend true true
        { draft with auth := AuthConfig.apiKey k v Placement.query } vars
        (Except.ok resp) hist fid now).2.head?
      = some (mkHistoryItem fid draft (buildUrl draft.url draft.params vars)
          resp now) ∧
    (dispatchCallOf
        { draft with auth := AuthConfig.apiKey k v Placement.query } vars).url
      = buildUrl draft.url draft.params vars
        ++ (if (buildUrl draft.url draft.params vars).data.contains '?'
            then "&" else "?")
        ++ encodeURIComponent k ++ "=" ++ encodeURIComponent v :=
  ⟨rfl, rfl⟩

/-- The variable map construction reads only the key and currentValue
fields, so two variable lists agreeing outside the sensitive flag fold to
the same map. -/
theorem filterFold_strip (vs vs' : List EnvVariable)
    (h : vs.map stripSensitive = vs'.map stripSensitive) :
    ∀ m : String → Option String,
      ((vs.filter (fun v => (trimJS v.key).data.length != 0)).foldl
        (fun m v => mapInsert m (trimJS v.key) v.currentValue) m)
      = ((vs'.filter (fun v => (trimJS v.key).data.length != 0)).foldl
        (fun m v => mapInsert m (trimJS v.key) v.currentValue) m) := by
  induction vs generalizing vs' with
  | nil =>
    cases vs' with
    | nil => intro m; rfl
    | cons b t => simp at h
  | cons a t ih =>
    cases vs' with
    | nil => simp at h
    | cons b t2 =>
      simp only [List.map_cons, List.cons.injEq] at h
      obtain ⟨hhead, htail⟩ := h
      simp only [stripSensitive, Prod.mk.injEq] at hhead
      obtain ⟨_, hkey, _, hcur⟩ := hhead
      intro m
      simp only [List.filter_cons]
      have hcond : ((trimJS b.key).data.length != 0)
          = ((trimJS a.key).data.length != 0) := by rw [hkey]
      rw [hcond]
      cases hc : ((trimJS a.key).data.length != 0) with
      | false =>
        simp only [cond_false, Bool.false_eq_true, if_neg]
        exact ih t2 htail m
      | true =>
        simp only [if_pos]
        simp only [List.foldl_cons]
        have hstep : mapInsert m (trimJS a.key) a.currentValue
            = mapInsert m (trimJS b.key) b.currentValue := by
          rw [hkey, hcur]
        rw [hstep]
        exact ih t2 htail _

/-- C9: the sensitive flag has no effect on resolution. Two variable
lists identical outside the sensitive flags derive the same variable
map, and therefore every resolved URL, header map, body, and every
handleSend outcome produced from them is the same. -/
theorem sensitive_irrelevant (vs vs' : List EnvVariable)
    (h : vs.map stripSensitive = vs'.map stripSensitive) :
    variableMap vs = variableMap vs' ∧
    (∀ url params, buildUrl url params (variableMap vs)
      = buildUrl url params (variableMap vs')) ∧
    (∀ headers auth, buildHeaders headers auth (variableMap vs)
      = buildHeaders headers auth (variableMap vs')) ∧
    (∀ m bt b ff, selectBody m bt b ff (variableMap vs)
      = selectBody m bt b ff (variableMap vs')) ∧
    (∀ a u draft tr hist fid now,
      handleSend a u draft (variableMap vs) tr hist fid now
        = handleSend a u draft (variableMap vs') tr hist fid now) := by
  have hm : variableMap vs = variableMap vs' :=
    filterFold_strip vs vs' h emptyMap
  exact ⟨hm, fun url params => by rw [hm], fun headers auth => by rw [hm],
    fun m bt b ff => by rw [hm],
    fun a u draft tr hist fid now => by rw [hm]⟩

/-- C9 witness: two rows differing only in the sensitive flag derive the
same map. -/
theorem sensitive_irrelevant_witness :
    variableMap [ev0] = variableMap [ev1] :=
  (sensitive_irrelevant [ev0] [ev1] (by decide)).1

/-- C10: the query-placed API key mutation is a plain append to the end
of the final URL, after any fragment, with separator ampersand when a
question mark occurs anywhere in the string, even inside the fragment,
and question mark otherwise; concrete instances show the append lands
after the fragment, the fragment question mark selects the ampersand,
and the URL builder, by contrast, splices its query before the fragment
of the same URL. -/
theorem dispatchUrl_plain_append :
    (∀ u k v : String,
      dispatchUrl u (AuthConfig.apiKey k v Placement.query)
        = u ++ (if u.data.contains '?' then "&" else "?")
          ++ encodeURIComponent k ++ "=" ++ encodeURIComponent v) ∧
    dispatchUrl "https://h/p#frag" (AuthConfig.apiKey "k" "v" Placement.query)
      = "https://h/p#frag?k=v" ∧
    dispatchUrl "https://h/p#f?x" (AuthConfig.apiKey "k" "v" Placement.query)
      = "https://h/p#f?x&k=v" ∧
    buildUrl "https://h/p#frag"
        [{ id := "1", key := "k", value := "v", enabled := true,
           secret := false }] emptyMap
      = "https://h/p?k=v#frag" :=
  ⟨fun _ _ _ => rfl, by decide, by decide, by decide⟩

end APIHive
